import Mathlib

/-!
Verification of the cnn-routeomatic routing engine against its
natural-language specification.

The development shallowly embeds the relevant JavaScript source files:
  - lib/utils.js        (doRuntimeChecks, substitute, mergeHeaders, isHostnameValid)
  - lib/trie-route.js   (TrieRoute.add / TrieRoute.find)
  - lib/route-table.js  (checkTrieRoutes, checkBasicsAndNormalizePath)
  - lib/host-table.js   (HostTable constructor, getHost)
  - lib/rom-request.js  (normalizeAndReduce, doRoute retry bound)
  - lib/http-error.js   (HttpError constructor, getErrorMessage)

Strings that are scanned character by character are modelled as List Char;
strings that are only compared for equality are modelled as String.
JavaScript dynamic typing is modelled explicitly where it matters: an
object property that is never assigned reads as undefined, which is
modelled as an Option that is none.
-/

set_option maxHeartbeats 1000000

namespace RouteOMatic

/-- The writeMethods list of lib/utils.js. -/
def writeMethods : List String :=
  ["POST", "PUT", "DELETE", "LOCK", "MERGE", "MKACTIVITY",
   "MKCOL", "MOVE", "PATCH", "PURGE", "UNLOCK", "UNSUBSCRIBE"]

/-- A compiled route, with the runtime-filter fields consulted by
doRuntimeChecks and the fields consulted by the trie resolver.  The
action is abstracted as a handler identifier, and a compiled postMatch
regex is abstracted as a predicate on the tail string. -/
structure Route where
  onMatch : List Char := []
  methodMatch : String := ""
  hostMatch : String := ""
  protoMatch : String := ""
  portMatch : Nat := 0
  allowWrite : Bool := false
  forceProto : String := ""
  forcePort : Nat := 0
  postMatchRE : Option (List Char → Bool) := none
  action : Nat := 0

/-- The fields of a RomRequest object that are consulted by the route
matchers.  `proto` is the request scheme assigned by
RomRequest.prototype.process (this.proto = prot).  The RomRequest
constructor and process never assign a `protocol` property, so a
JavaScript read of req.protocol yields undefined; that property is
modelled as an Option whose value is none on every request the router
builds. -/
structure RomReq where
  method : String := "GET"
  port : Nat := 80
  hostname : String := ""
  proto : String := "http"
  protocol : Option String := none
  path : List Char := []
  normalizedPath : List Char := []
  query : List Char := []

/-- JavaScript strict inequality between a string and a
string-or-undefined value (undefined compares unequal to every string). -/
def strictNe (s : String) : Option String → Bool
  | some t => s != t
  | none => true

/-- utils.doRuntimeChecks, translated clause by clause.  Note that the
source reads req.protocol (not req.proto) in the protocol clause. -/
def doRuntimeChecks (req : RomReq) (r : Route) : Bool :=
  if (r.methodMatch.length != 0 && r.methodMatch != req.method)
      || (r.allowWrite != true && r.methodMatch.length == 0 && writeMethods.contains req.method)
      || (r.portMatch != 0 && r.portMatch != req.port)
      || (r.hostMatch.length != 0 && r.hostMatch != req.hostname)
      || (r.protoMatch.length != 0 && strictNe r.protoMatch req.protocol)
  then false else true

/-- A node of the TrieRoute radix trie: the optional |W (substring
match) terminal, the optional |X (full string match) terminal, and the
single-character child edges. -/
inductive Trie where
  | node (w x : Option Route) (children : List (Char × Trie))

/-- The |W (substring/prefix) terminal of a node. -/
def Trie.w : Trie → Option Route
  | .node w _ _ => w

/-- The |X (exact) terminal of a node. -/
def Trie.x : Trie → Option Route
  | .node _ x _ => x

/-- The child edges of a node. -/
def Trie.children : Trie → List (Char × Trie)
  | .node _ _ c => c

/-- The object returned by TrieRoute.find: the stored route and the
matched prefix of the path.  It has exactly these two properties. -/
structure FindResult where
  data : Route
  matched : List Char

/-- Filter an optional terminal through doRuntimeChecks, mirroring the
pattern ('|W' in node && doRuntimeChecks(req, node['|W'].val)). -/
def passCheck (req : RomReq) : Option Route → Option Route
  | some r => if doRuntimeChecks req r then some r else none
  | none => none

/-- The recursive worker parseWord of TrieRoute.find.  The first
argument is the unconsumed part of the word, the third the consumed
prefix (word.slice(0, depth)). -/
def parseWord (req : RomReq) : List Char → Trie → List Char → Option FindResult
  | [], t, consumed =>
    match passCheck req t.w with
    | some r => some ⟨r, consumed⟩
    | none => (passCheck req t.x).map fun r => ⟨r, consumed⟩
  | c :: rest, t, consumed =>
    match passCheck req t.w with
    | some r => some ⟨r, consumed⟩
    | none =>
      match t.children.lookup c with
      | some t2 => parseWord req rest t2 (consumed ++ [c])
      | none => none

/-- TrieRoute.prototype.find: non-empty string guard, then parseWord
from the root at depth 0. -/
def TrieRoute.find (t : Trie) (path : List Char) (req : RomReq) : Option FindResult :=
  if path.length != 0 then parseWord req path t [] else none

/-- Descend from a node along a character list, following the child
edges; none when some edge is missing. -/
def nodeAt : Trie → List Char → Option Trie
  | t, [] => some t
  | t, c :: cs =>
    match t.children.lookup c with
    | some t2 => nodeAt t2 cs
    | none => none

/-- The runtime-passing |W route stored at the node reached by a given
prefix, if both exist. -/
def wRouteAt (req : RomReq) (t : Trie) (p : List Char) : Option Route :=
  (nodeAt t p).bind fun n => passCheck req n.w

/-- First hit of an option-valued function over a list of depths. -/
def firstHit {β : Type} (f : Nat → Option β) : List Nat → Option β
  | [] => none
  | d :: ds =>
    match f d with
    | some r => some r
    | none => firstHit f ds

/-- The specification of TrieRoute.find, written from the spec text:
return the prefix (|W) terminal at the SHORTEST depth along p whose
stored route passes doRuntimeChecks, with match equal to the prefix of
p up to that depth; if no prefix terminal along p passes, return the
exact (|X) terminal at depth equal to the length of p when it exists
and passes; otherwise null.  The depth list is ascending, so firstHit
returns the shortest passing depth. -/
def findSpec (t : Trie) (p : List Char) (req : RomReq) : Option FindResult :=
  match firstHit (fun d => (wRouteAt req t (p.take d)).map fun r => FindResult.mk r (p.take d))
      (List.range (p.length + 1)) with
  | some res => some res
  | none => ((nodeAt t p).bind fun n => passCheck req n.x).map fun r => ⟨r, p⟩

theorem firstHit_shift {β : Type} (f : Nat → Option β) (l : List Nat) :
    firstHit f (l.map Nat.succ) = firstHit (fun k => f (k + 1)) l := by
  induction l with
  | nil => rfl
  | cons d ds ih =>
    simp only [List.map_cons, firstHit, Nat.succ_eq_add_one]
    cases f (d + 1) <;> simp [ih]

theorem firstHit_opt_map {β γ : Type} (g : Nat → Option β) (h : β → γ) (l : List Nat) :
    firstHit (fun k => (g k).map h) l = (firstHit g l).map h := by
  induction l with
  | nil => rfl
  | cons d ds ih =>
    simp only [firstHit]
    cases g d <;> simp [ih]

theorem firstHit_congr {β : Type} (f g : Nat → Option β) (l : List Nat)
    (h : ∀ k ∈ l, f k = g k) : firstHit f l = firstHit g l := by
  induction l with
  | nil => rfl
  | cons d ds ih =>
    simp only [firstHit, h d (List.mem_cons_self d ds)]
    cases g d with
    | some r => rfl
    | none => exact ih fun k hk => h k (List.mem_cons_of_mem d hk)

theorem firstHit_none {β : Type} (f : Nat → Option β) (l : List Nat)
    (h : ∀ k ∈ l, f k = none) : firstHit f l = none := by
  induction l with
  | nil => rfl
  | cons d ds ih =>
    simp only [firstHit, h d (List.mem_cons_self d ds)]
    exact ih fun k hk => h k (List.mem_cons_of_mem d hk)

theorem nodeAt_cons (t : Trie) (c : Char) (cs : List Char) :
    nodeAt t (c :: cs)
      = match t.children.lookup c with
        | some t2 => nodeAt t2 cs
        | none => none := rfl

theorem wRouteAt_nil (req : RomReq) (t : Trie) :
    wRouteAt req t [] = passCheck req t.w := rfl

theorem findSpec_nil (t : Trie) (req : RomReq) :
    findSpec t [] req
      = match passCheck req t.w with
        | some r => some ⟨r, []⟩
        | none => (passCheck req t.x).map fun r => ⟨r, []⟩ := by
  have h1 : List.range 1 = [0] := rfl
  simp only [findSpec, List.length_nil, Nat.zero_add, h1, firstHit, List.take_nil, wRouteAt_nil]
  cases passCheck req t.w with
  | some r => simp
  | none =>
    cases hx : passCheck req t.x <;> simp [nodeAt, hx]

theorem findSpec_cons_hit (t : Trie) (c : Char) (rest : List Char) (req : RomReq)
    (r : Route) (hw : passCheck req t.w = some r) :
    findSpec t (c :: rest) req = some ⟨r, []⟩ := by
  have hrange : List.range ((c :: rest).length + 1)
      = 0 :: (List.range (rest.length + 1)).map Nat.succ := by
    simp [List.range_succ_eq_map]
  simp only [findSpec, hrange, firstHit, List.take_zero, wRouteAt_nil, hw, Option.map_some']

theorem findSpec_cons_miss (t : Trie) (c : Char) (rest : List Char) (req : RomReq)
    (hw : passCheck req t.w = none) (hc : t.children.lookup c = none) :
    findSpec t (c :: rest) req = none := by
  have hrange : List.range ((c :: rest).length + 1)
      = 0 :: (List.range (rest.length + 1)).map Nat.succ := by
    simp [List.range_succ_eq_map]
  have hdeep : ∀ k ∈ List.range (rest.length + 1),
      (fun k => (wRouteAt req t ((c :: rest).take (k + 1))).map fun r =>
        FindResult.mk r ((c :: rest).take (k + 1))) k = none := by
    intro k _
    simp only [List.take_succ_cons, wRouteAt, nodeAt_cons, hc, Option.map_eq_none]
    rfl
  simp only [findSpec, hrange, firstHit, List.take_zero, wRouteAt_nil, hw, Option.map_none]
  rw [firstHit_shift, firstHit_none _ _ hdeep]
  simp [nodeAt_cons, hc]

theorem findSpec_cons_step (t t2 : Trie) (c : Char) (rest : List Char) (req : RomReq)
    (hw : passCheck req t.w = none) (hc : t.children.lookup c = some t2) :
    findSpec t (c :: rest) req
      = (findSpec t2 rest req).map fun fr => ⟨fr.data, c :: fr.matched⟩ := by
  have hrange : List.range ((c :: rest).length + 1)
      = 0 :: (List.range (rest.length + 1)).map Nat.succ := by
    simp [List.range_succ_eq_map]
  have hstep : ∀ k, wRouteAt req t ((c :: rest).take (k + 1))
      = wRouteAt req t2 (rest.take k) := by
    intro k
    simp [List.take_succ_cons, wRouteAt, nodeAt_cons, hc]
  have hx2 : nodeAt t (c :: rest) = nodeAt t2 rest := by
    simp [nodeAt_cons, hc]
  have hfun : (fun k => (wRouteAt req t ((c :: rest).take (k + 1))).map fun r =>
        FindResult.mk r ((c :: rest).take (k + 1)))
      = fun k => ((wRouteAt req t2 (rest.take k)).map fun r =>
        FindResult.mk r (rest.take k)).map fun fr =>
          FindResult.mk fr.data (c :: fr.matched) := by
    funext k
    rw [hstep k, List.take_succ_cons, Option.map_map]
    rfl
  simp only [findSpec, hrange, firstHit, List.take_zero, wRouteAt_nil, hw, Option.map_none]
  rw [firstHit_shift]
  have hfun2 : (fun k => (fun d => (wRouteAt req t ((c :: rest).take d)).map fun r =>
        FindResult.mk r ((c :: rest).take d)) (k + 1))
      = fun k => ((wRouteAt req t2 (rest.take k)).map fun r =>
        FindResult.mk r (rest.take k)).map fun fr =>
          FindResult.mk fr.data (c :: fr.matched) := hfun
  rw [hfun2, firstHit_opt_map]
  cases hfh : firstHit (fun k => (wRouteAt req t2 (rest.take k)).map fun r =>
      FindResult.mk r (rest.take k)) (List.range (rest.length + 1)) with
  | some fr => simp
  | none =>
    simp only [Option.map_none, hx2]
    cases (nodeAt t2 rest).bind fun n => passCheck req n.x <;> simp

/-- parseWord computes findSpec on the remaining word, with the consumed
prefix prepended to the matched string. -/
theorem parseWord_eq (req : RomReq) :
    ∀ (rest : List Char) (t : Trie) (consumed : List Char),
      parseWord req rest t consumed
        = (findSpec t rest req).map fun fr => ⟨fr.data, consumed ++ fr.matched⟩ := by
  intro rest
  induction rest with
  | nil =>
    intro t consumed
    rw [findSpec_nil]
    simp only [parseWord]
    cases passCheck req t.w with
    | some r => simp
    | none =>
      cases passCheck req t.x <;> simp
  | cons c rest2 ih =>
    intro t consumed
    simp only [parseWord]
    cases hw : passCheck req t.w with
    | some r =>
      rw [findSpec_cons_hit t c rest2 req r hw]
      simp
    | none =>
      cases hc : t.children.lookup c with
      | none =>
        rw [findSpec_cons_miss t c rest2 req hw hc]
        rfl
      | some t2 =>
        rw [findSpec_cons_step t t2 c rest2 req hw hc]
        simp only [ih t2 (consumed ++ [c]), Option.map_map]
        cases findSpec t2 rest2 req with
        | none => rfl
        | some fr => simp

/-- Claim C2: for every non-empty path p, TrieRoute.find returns the
prefix terminal at the shortest depth along p whose stored route passes
doRuntimeChecks (with match equal to the prefix of p up to that depth),
else the exact terminal at full length when it exists and passes, else
null; it never backtracks from a passing prefix terminal to a longer
exact terminal.  This is exactly the findSpec function, whose depth
search is in ascending order. -/
theorem find_eq_findSpec (t : Trie) (p : List Char) (req : RomReq) (hp : p ≠ []) :
    TrieRoute.find t p req = findSpec t p req := by
  have hlen : p.length ≠ 0 := fun h => hp (List.length_eq_zero.mp h)
  rw [TrieRoute.find, if_pos (by simpa using hlen), parseWord_eq]
  cases findSpec t p req with
  | none => rfl
  | some fr => simp

/-- Demonstration route used by concrete witnesses. -/
def routeA : Route := { onMatch := ['/', 'a', '/'], action := 1 }

/-- Demonstration trie holding routeA as a prefix (|W) terminal under
the key "/a/". -/
def trieA : Trie :=
  .node none none
    [('/', .node none none
      [('a', .node none none
        [('/', .node (some routeA) none [])])])]

/-- Demonstration request used by concrete witnesses. -/
def reqA : RomReq := {}

/-- Witness for C2 at a concrete trie, path and request. -/
theorem find_eq_findSpec_witness :
    TrieRoute.find trieA ['/', 'a', '/', 'b'] reqA = findSpec trieA ['/', 'a', '/', 'b'] reqA ∧
    TrieRoute.find trieA ['/', 'a', '/', 'b'] reqA = some ⟨routeA, ['/', 'a', '/']⟩ :=
  ⟨find_eq_findSpec trieA _ reqA (by decide), by rfl⟩

/-- First index of a percent character at or after a start position,
mirroring the JavaScript ns.indexOf(PERCENT, start); none plays the
role of the -1 result. -/
def idxPct : List Char → Nat → Option Nat
  | [], _ => none
  | c :: rest, 0 => if c = '%' then some 0 else (idxPct rest 0).map (· + 1)
  | _ :: rest, s + 1 => (idxPct rest s).map (· + 1)

/-- The JavaScript ns.slice(a, b). -/
def sliceList (l : List Char) (a b : Nat) : List Char := (l.take b).drop a

/-- The scanning loop of utils.substitute.  The state is the current
string ns and the index ss of the current percent character; fuel only
bounds the recursion and is chosen large enough in substitute.  Each
round looks for the closing percent se, substitutes when the name
between the two percents is a string-valued key, and otherwise resumes
at se; after a substitution the scan resumes at ss plus the length of
the substituted value, i.e. past the substituted region. -/
def subLoop (subs : List Char → Option (List Char)) : Nat → List Char → Nat → List Char
  | 0, ns, _ => ns
  | fuel + 1, ns, ss =>
    match idxPct ns (ss + 1) with
    | none => ns
    | some se =>
      let sw := sliceList ns (ss + 1) se
      match (if sw.length != 0 then subs sw else none) with
      | some v =>
        if ns.length ≤ se + 1 then ns.take ss ++ v
        else
          let ns2 := ns.take ss ++ v ++ ns.drop (se + 1)
          match idxPct ns2 (ss + v.length) with
          | none => ns2
          | some ss2 => subLoop subs fuel ns2 ss2
      | none => subLoop subs fuel ns se

/-- utils.substitute on a string input: find the first percent sign and
run the loop.  subs maps a name to some value exactly when the
JavaScript subs object has a string value under that name. -/
def substitute (subs : List Char → Option (List Char)) (orig : List Char) : List Char :=
  match idxPct orig 0 with
  | none => orig
  | some ss => subLoop subs (orig.length + 1) orig ss

/-- A value passed to utils.substitute: a string or any non-string
value.  Non-string values pass through the typeof guard untouched. -/
inductive SubInput where
  | str (s : List Char)
  | nonString

/-- utils.substitute including its typeof guard on the input. -/
def substituteVal (subs : List Char → Option (List Char)) : SubInput → SubInput
  | .str s => .str (substitute subs s)
  | .nonString => .nonString

/-- The string s contains no name sitting between two consecutive
percent characters that is a string-valued key of subs.  This is the
claim hypothesis: s contains no percent-name-percent pair whose name is
a string-valued key. -/
def NoSubPair (subs : List Char → Option (List Char)) (s : List Char) : Prop :=
  ∀ i j, i + 1 < j → s.get? i = some '%' → s.get? j = some '%' →
    (∀ k, i < k → k < j → s.get? k ≠ some '%') → subs (sliceList s (i + 1) j) = none

theorem idxPct_spec : ∀ (l : List Char) (s i : Nat), idxPct l s = some i →
    s ≤ i ∧ l.get? i = some '%' ∧ ∀ j, s ≤ j → j < i → l.get? j ≠ some '%' := by
  intro l
  induction l with
  | nil => intro s i h; simp [idxPct] at h
  | cons c rest ih =>
    intro s i h
    cases s with
    | zero =>
      by_cases hc : c = '%'
      · simp [idxPct, hc] at h
        subst h
        refine ⟨Nat.le_refl 0, by simp [hc], ?_⟩
        intro j _ hj
        omega
      · simp [idxPct, hc] at h
        obtain ⟨i0, hi0, hieq⟩ := h
        obtain ⟨_, hget, hmin⟩ := ih 0 i0 hi0
        subst hieq
        refine ⟨Nat.zero_le _, by simpa using hget, ?_⟩
        intro j _ hj
        cases j with
        | zero => simpa using hc
        | succ j0 =>
          have := hmin j0 (Nat.zero_le _) (by omega)
          simpa using this
    | succ s0 =>
      simp [idxPct] at h
      obtain ⟨i0, hi0, hieq⟩ := h
      obtain ⟨hle, hget, hmin⟩ := ih s0 i0 hi0
      subst hieq
      refine ⟨by omega, by simpa using hget, ?_⟩
      intro j hsj hj
      cases j with
      | zero => omega
      | succ j0 =>
        have := hmin j0 (by omega) (by omega)
        simpa using this

theorem subLoop_fixed (subs : List Char → Option (List Char)) (s : List Char)
    (H : NoSubPair subs s) :
    ∀ (fuel ss : Nat), s.get? ss = some '%' → subLoop subs fuel s ss = s := by
  intro fuel
  induction fuel with
  | zero => intro ss _; rfl
  | succ fuel ih =>
    intro ss hss
    rw [subLoop]
    cases hse : idxPct s (ss + 1) with
    | none => rfl
    | some se =>
      obtain ⟨hle, hget, hmin⟩ := idxPct_spec s (ss + 1) se hse
      have hlt : se < s.length := by
        by_contra hge
        rw [List.get?_eq_none.mpr (by omega)] at hget
        exact Option.noConfusion hget
      have hsw : (sliceList s (ss + 1) se).length = se - (ss + 1) := by
        simp [sliceList, List.length_drop, List.length_take]
        omega
      by_cases hempty : se - (ss + 1) = 0
      · have : ((sliceList s (ss + 1) se).length != 0) = false := by
          simp [hsw, hempty]
        simp only [this, Bool.false_eq_true, if_false]
        exact ih se hget
      · have hne : ((sliceList s (ss + 1) se).length != 0) = true := by
          simp [hsw]
          omega
        have hsubs : subs (sliceList s (ss + 1) se) = none := by
          refine H ss se (by omega) hss hget ?_
          intro k hk1 hk2
          exact hmin k (by omega) hk2
        simp only [hne, if_true, hsubs]
        exact ih se hget

/-- Claim C9: substitute is a fixed point whenever the input contains
no percent-name-percent pair whose name is a string-valued key of subs
(so unknown tokens are left in place), and a non-string input passes
through unchanged. -/
theorem substitute_fixedPoint (subs : List Char → Option (List Char)) (s : List Char)
    (H : NoSubPair subs s) :
    substitute subs s = s ∧ substituteVal subs SubInput.nonString = SubInput.nonString := by
  refine ⟨?_, rfl⟩
  rw [substitute]
  cases h0 : idxPct s 0 with
  | none => rfl
  | some ss =>
    obtain ⟨_, hget, _⟩ := idxPct_spec s 0 ss h0
    exact subLoop_fixed subs s H (s.length + 1) ss hget

/-- Witness for C9: a string with percent tokens and a substitution map
with no string-valued keys is returned verbatim. -/
theorem substitute_fixedPoint_witness :
    substitute (fun _ => none) ['%', 'a', '%'] = ['%', 'a', '%'] ∧
    substituteVal (fun _ => none) SubInput.nonString = SubInput.nonString :=
  substitute_fixedPoint (fun _ => none) ['%', 'a', '%'] (fun _ _ _ _ _ _ => rfl)

/-- Hexadecimal digit test matching the character class of the regex
in normalizeAndReduce. -/
def isHexDigit (c : Char) : Bool :=
  (48 ≤ c.toNat && c.toNat ≤ 57) || (65 ≤ c.toNat && c.toNat ≤ 70)
    || (97 ≤ c.toNat && c.toNat ≤ 102)

/-- Value of a hexadecimal digit. -/
def hexVal (c : Char) : Nat :=
  if c.toNat ≤ 57 then c.toNat - 48
  else if c.toNat ≤ 70 then c.toNat - 55
  else c.toNat - 87

/-- Uppercasing of a single hex digit, as mtch.toUpperCase() does to
the digits of a matched escape. -/
def hexUpper (c : Char) : Char :=
  if 97 ≤ c.toNat && c.toNat ≤ 102 then Char.ofNat (c.toNat - 32) else c

/-- The byte-value test of RomRequest.normalizeAndReduce, line by line:
hyphen, dot, underscore, tilde, uppercase letters, digits.  Lowercase
letters are NOT in this set in the source. -/
def isUnreservedVal (v : Nat) : Bool :=
  v == 0x2D || v == 0x2E || v == 0x5F || v == 0x7E
    || (0x41 ≤ v && v ≤ 0x5A) || (0x30 ≤ v && v ≤ 0x39)

/-- The regex replacement pass of RomRequest.normalizeAndReduce: a
left-to-right, non-overlapping scan for percent followed by two hex
digits; escapes of bytes in isUnreservedVal are decoded, escapes of CR
and LF set the newline flag and are hex-uppercased, all other escapes
are hex-uppercased; everything else is copied.  Returns the newline
flag and the rewritten string. -/
def narScan : List Char → Bool × List Char
  | [] => (false, [])
  | '%' :: h1 :: h2 :: rest =>
    if isHexDigit h1 && isHexDigit h2 then
      let v := 16 * hexVal h1 + hexVal h2
      let p := narScan rest
      if isUnreservedVal v then (p.1, Char.ofNat v :: p.2)
      else (p.1 || (v == 10 || v == 13), '%' :: hexUpper h1 :: hexUpper h2 :: p.2)
    else
      let p := narScan (h1 :: h2 :: rest)
      (p.1, '%' :: p.2)
  | c :: rest =>
    let p := narScan rest
    (p.1, c :: p.2)

/-- Percent in the path portion: the final check of normalizeAndReduce
(ppos not -1, and qpos -1 or ppos before qpos) holds exactly when the
segment of the string before the first question mark contains a percent
character. -/
def pctInPath (l : List Char) : Bool := (l.takeWhile (· != '?')).contains '%'

/-- RomRequest.normalizeAndReduce: run the replacement scan, then
return null when the newline flag was set or a percent remains before
any question mark; otherwise return the rewritten URL. -/
def normalizeAndReduce (url : List Char) : Option (List Char) :=
  let p := narScan url
  if p.1 || pctInPath p.2 then none else some p.2

/-- Spec-side head test: the list starts with a percent-encoded CR or
LF, i.e. percent, zero, then one of a, A, d, D. -/
def crlfAt : List Char → Bool
  | p :: z :: c :: _ =>
    p == '%' && z == '0' && (c == 'a' || c == 'A' || c == 'd' || c == 'D')
  | _ => false

/-- Spec-side predicate: the string contains a percent-encoded CR or LF
(in either hex case) anywhere, as a substring test. -/
def hasEncodedCRLF (l : List Char) : Bool := l.tails.any crlfAt

/-- Spec-side decoding pass over the source's unreserved set: decode
escapes of unreserved bytes, hex-uppercase the remaining escapes, copy
everything else. -/
def decodeUnres : List Char → List Char
  | [] => []
  | '%' :: h1 :: h2 :: rest =>
    if isHexDigit h1 && isHexDigit h2 then
      let v := 16 * hexVal h1 + hexVal h2
      if isUnreservedVal v then Char.ofNat v :: decodeUnres rest
      else '%' :: hexUpper h1 :: hexUpper h2 :: decodeUnres rest
    else '%' :: decodeUnres (h1 :: h2 :: rest)
  | c :: rest => c :: decodeUnres rest

/-- Claim-side decoding pass over the unreserved set AS THE CLAIM
STATES IT, i.e. including the lowercase letters a-z. -/
def isUnreservedValClaim (v : Nat) : Bool :=
  isUnreservedVal v || (0x61 ≤ v && v ≤ 0x7A)

/-- Claim-side decoding with the claim's unreserved set. -/
def decodeUnresClaim : List Char → List Char
  | [] => []
  | '%' :: h1 :: h2 :: rest =>
    if isHexDigit h1 && isHexDigit h2 then
      let v := 16 * hexVal h1 + hexVal h2
      if isUnreservedValClaim v then Char.ofNat v :: decodeUnresClaim rest
      else '%' :: hexUpper h1 :: hexUpper h2 :: decodeUnresClaim rest
    else '%' :: decodeUnresClaim (h1 :: h2 :: rest)
  | c :: rest => c :: decodeUnresClaim rest

theorem char_eq_iff_toNat (a b : Char) : a = b ↔ a.toNat = b.toNat :=
  ⟨fun h => h ▸ rfl, fun h => by
    have h2 := congrArg Char.ofNat h
    rwa [Char.ofNat_toNat, Char.ofNat_toNat] at h2⟩

theorem char_beq_toNat (a b : Char) : (a == b) = (a.toNat == b.toNat) := by
  by_cases h : a = b
  · subst h; simp
  · have hn : a.toNat ≠ b.toNat := fun hh => h ((char_eq_iff_toNat a b).mpr hh)
    simp [h, hn]

theorem bool_eq_of_iff {a b : Bool} (h : a = true ↔ b = true) : a = b := by
  cases a <;> cases b <;> simp_all

theorem crlf_val_iff (h1 h2 : Char) (hh1 : isHexDigit h1 = true) (hh2 : isHexDigit h2 = true) :
    ((16 * hexVal h1 + hexVal h2 == 10) || (16 * hexVal h1 + hexVal h2 == 13))
      = ((h1 == '0') && ((h2 == 'a') || (h2 == 'A') || (h2 == 'd') || (h2 == 'D'))) := by
  simp only [isHexDigit, Bool.or_eq_true, Bool.and_eq_true, decide_eq_true_eq] at hh1 hh2
  apply bool_eq_of_iff
  simp only [Bool.or_eq_true, Bool.and_eq_true, beq_iff_eq, char_beq_toNat,
    show ('0' : Char).toNat = 48 from rfl, show ('a' : Char).toNat = 97 from rfl,
    show ('A' : Char).toNat = 65 from rfl, show ('d' : Char).toNat = 100 from rfl,
    show ('D' : Char).toNat = 68 from rfl]
  unfold hexVal
  split_ifs <;> omega

theorem hex_not_pct (c : Char) (h : isHexDigit c = true) : (c == '%') = false := by
  simp only [isHexDigit, Bool.or_eq_true, Bool.and_eq_true, decide_eq_true_eq] at h
  simp only [char_beq_toNat, show ('%' : Char).toNat = 37 from rfl]
  simp only [beq_eq_false_iff_ne, ne_eq]
  omega

theorem crlfAt_of_ne (c : Char) (l : List Char) (h : (c == '%') = false) :
    crlfAt (c :: l) = false := by
  match l with
  | [] => rfl
  | [y] => rfl
  | y :: z :: t => simp [crlfAt, h]

theorem hasEncodedCRLF_cons (c : Char) (l : List Char) :
    hasEncodedCRLF (c :: l) = (crlfAt (c :: l) || hasEncodedCRLF l) := by
  simp [hasEncodedCRLF, List.tails_cons]

theorem crlfAt_pct (h1 h2 : Char) (rest : List Char) :
    crlfAt ('%' :: h1 :: h2 :: rest)
      = ((h1 == '0') && ((h2 == 'a') || (h2 == 'A') || (h2 == 'd') || (h2 == 'D'))) := by
  simp [crlfAt]

theorem narScan_catchall (c : Char) (rest : List Char)
    (h : ∀ (y z : Char) (t : List Char), c = '%' → rest = y :: z :: t → False) :
    narScan (c :: rest) = ((narScan rest).1, c :: (narScan rest).2) := by
  rw [narScan.eq_def]
  split
  · rename_i heq
    exact absurd heq (by simp)
  · rename_i h1 h2 rest1 heq
    simp only [List.cons.injEq] at heq
    exact (h h1 h2 rest1 heq.1 heq.2).elim
  · rename_i c2 rest2 hsh heq
    simp only [List.cons.injEq] at heq
    obtain ⟨he1, he2⟩ := heq
    subst he1
    subst he2
    rfl

theorem decodeUnres_catchall (c : Char) (rest : List Char)
    (h : ∀ (y z : Char) (t : List Char), c = '%' → rest = y :: z :: t → False) :
    decodeUnres (c :: rest) = c :: decodeUnres rest := by
  rw [decodeUnres.eq_def]
  split
  · rename_i heq
    exact absurd heq (by simp)
  · rename_i h1 h2 rest1 heq
    simp only [List.cons.injEq] at heq
    exact (h h1 h2 rest1 heq.1 heq.2).elim
  · rename_i c2 rest2 hsh heq
    simp only [List.cons.injEq] at heq
    obtain ⟨he1, he2⟩ := heq
    subst he1
    subst he2
    rfl

theorem unres_not_crlf (v : Nat) (h : isUnreservedVal v = true) :
    ((v == 10) || (v == 13)) = false := by
  simp only [isUnreservedVal, Bool.or_eq_true, Bool.and_eq_true, beq_iff_eq,
    decide_eq_true_eq] at h
  simp only [Bool.or_eq_false_iff, beq_eq_false_iff_ne, ne_eq]
  omega


theorem narScan_pct (h1 h2 : Char) (rest : List Char) :
    narScan ('%' :: h1 :: h2 :: rest)
      = if isHexDigit h1 && isHexDigit h2 then
          if isUnreservedVal (16 * hexVal h1 + hexVal h2) then
            ((narScan rest).1, Char.ofNat (16 * hexVal h1 + hexVal h2) :: (narScan rest).2)
          else ((narScan rest).1 || (16 * hexVal h1 + hexVal h2 == 10 || 16 * hexVal h1 + hexVal h2 == 13),
            '%' :: hexUpper h1 :: hexUpper h2 :: (narScan rest).2)
        else ((narScan (h1 :: h2 :: rest)).1, '%' :: (narScan (h1 :: h2 :: rest)).2) := rfl

theorem decodeUnres_pct (h1 h2 : Char) (rest : List Char) :
    decodeUnres ('%' :: h1 :: h2 :: rest)
      = if isHexDigit h1 && isHexDigit h2 then
          if isUnreservedVal (16 * hexVal h1 + hexVal h2) then
            Char.ofNat (16 * hexVal h1 + hexVal h2) :: decodeUnres rest
          else '%' :: hexUpper h1 :: hexUpper h2 :: decodeUnres rest
        else '%' :: decodeUnres (h1 :: h2 :: rest) := rfl

theorem narScan_eq (l : List Char) : narScan l = (hasEncodedCRLF l, decodeUnres l) := by
  induction l using narScan.induct with
  | case1 => rfl
  | case2 h1 h2 rest hhex v hunres ih =>
    have hpair := hhex
    simp only [Bool.and_eq_true] at hpair
    obtain ⟨hh1, hh2⟩ := hpair
    have hflag := unres_not_crlf _ hunres
    have hfull : crlfAt ('%' :: h1 :: h2 :: rest) = false := by
      rw [crlfAt_pct, ← crlf_val_iff h1 h2 hh1 hh2]
      exact hflag
    rw [narScan_pct, decodeUnres_pct]
    simp only [if_pos hhex, if_pos hunres, ih]
    rw [hasEncodedCRLF_cons '%' (h1 :: h2 :: rest), hasEncodedCRLF_cons h1 (h2 :: rest),
      hasEncodedCRLF_cons h2 rest, hfull, crlfAt_of_ne h1 _ (hex_not_pct h1 hh1),
      crlfAt_of_ne h2 _ (hex_not_pct h2 hh2)]
    simp
  | case3 h1 h2 rest hhex v hunres ih =>
    have hpair := hhex
    simp only [Bool.and_eq_true] at hpair
    obtain ⟨hh1, hh2⟩ := hpair
    have hfull : crlfAt ('%' :: h1 :: h2 :: rest)
        = ((16 * hexVal h1 + hexVal h2 == 10) || (16 * hexVal h1 + hexVal h2 == 13)) := by
      rw [crlfAt_pct, ← crlf_val_iff h1 h2 hh1 hh2]
    rw [narScan_pct, decodeUnres_pct]
    simp only [if_pos hhex, if_neg hunres, ih]
    rw [hasEncodedCRLF_cons '%' (h1 :: h2 :: rest), hasEncodedCRLF_cons h1 (h2 :: rest),
      hasEncodedCRLF_cons h2 rest, hfull, crlfAt_of_ne h1 _ (hex_not_pct h1 hh1),
      crlfAt_of_ne h2 _ (hex_not_pct h2 hh2)]
    simp [Bool.or_comm]
  | case4 h1 h2 rest hhex ih =>
    have hfull : crlfAt ('%' :: h1 :: h2 :: rest) = false := by
      rw [crlfAt_pct]
      by_contra hcon
      rw [Bool.not_eq_false, Bool.and_eq_true] at hcon
      obtain ⟨hz, hlet⟩ := hcon
      rw [beq_iff_eq] at hz
      subst hz
      have hd2 : isHexDigit h2 = true := by
        simp only [Bool.or_eq_true, beq_iff_eq] at hlet
        rcases hlet with ((rfl | rfl) | rfl) | rfl <;> decide
      exact hhex (by simp [hd2]; decide)
    rw [narScan_pct, decodeUnres_pct]
    simp only [if_neg hhex, ih]
    rw [hasEncodedCRLF_cons '%' (h1 :: h2 :: rest), hfull]
    simp
  | case5 c rest hsh ih =>
    rw [narScan_catchall c rest hsh, decodeUnres_catchall c rest hsh, ih]
    rw [hasEncodedCRLF_cons c rest]
    have hfull : crlfAt (c :: rest) = false := by
      by_cases hc : (c == '%') = true
      · rw [beq_iff_eq] at hc
        subst hc
        match rest, hsh with
        | [], _ => rfl
        | [y], _ => rfl
        | y :: z :: t, hsh => exact (hsh y z t rfl rfl).elim
      · exact crlfAt_of_ne c rest (by simpa using hc)
    rw [hfull]
    simp

/-- Counterexample to claim C4 as stated: the URL "/%61" contains no
percent-encoded CR or LF, and under the claim's unreserved set (which
includes the lowercase letters) it decodes to "/a" with no percent
remaining, so the claim says it is accepted; the source's unreserved
test has no lowercase range, the escape is left in place, the percent
remains in the path, and normalizeAndReduce returns null. -/
theorem normalizeAndReduce_counterexample :
    normalizeAndReduce ['/', '%', '6', '1'] = none ∧
    hasEncodedCRLF ['/', '%', '6', '1'] = false ∧
    decodeUnresClaim ['/', '%', '6', '1'] = ['/', 'a'] ∧
    pctInPath (decodeUnresClaim ['/', '%', '6', '1']) = false := by
  refine ⟨?_, ?_, ?_, ?_⟩ <;> rfl

/-- Claim C4 as amended: normalizeAndReduce returns null exactly when
the input contains a percent-encoded CR or LF anywhere, or any percent
character remains in the path portion (before any question mark) after
the decoding pass; in every other case it returns the input with every
escape of a character in the SOURCE's unreserved set (A-Z, 0-9, hyphen,
dot, underscore, tilde - lowercase letters are not decoded) decoded to
its literal and every remaining escape hex-uppercased. -/
theorem normalizeAndReduce_amended (u : List Char) :
    normalizeAndReduce u
      = if hasEncodedCRLF u || pctInPath (decodeUnres u) then none
        else some (decodeUnres u) := by
  simp only [normalizeAndReduce, narScan_eq]

/-- A request whose scheme is https, exactly as RomRequest.process
builds it: the scheme is stored in proto, and no protocol property is
ever assigned (so a read of req.protocol yields undefined). -/
def reqProtoHttps : RomReq := { proto := "https" }

/-- A route whose only runtime filter is protoMatch https. -/
def routeProtoHttps : Route := { protoMatch := "https" }

/-- Claim C3, evaluation at the failing input: routeProtoHttps demands
scheme https and reqProtoHttps carries scheme https (and passes every
other clause: GET is not a write method, portMatch is 0, hostMatch and
methodMatch are empty), so the claim says doRuntimeChecks returns true;
the source compares r.protoMatch against req.protocol, a property the
RomRequest never assigns, so the comparison sees undefined and
doRuntimeChecks returns false. -/
theorem doRuntimeChecks_protocol_bug :
    doRuntimeChecks reqProtoHttps routeProtoHttps = false ∧
    reqProtoHttps.proto = routeProtoHttps.protoMatch ∧
    reqProtoHttps.method = "GET" ∧
    routeProtoHttps.methodMatch = "" ∧
    routeProtoHttps.portMatch = 0 ∧
    routeProtoHttps.hostMatch = "" ∧
    strictNe routeProtoHttps.protoMatch reqProtoHttps.protocol = true :=
  ⟨rfl, rfl, rfl, rfl, rfl, rfl, rfl⟩

/-- The fields of a compiled RouteTable consulted by checkTrieRoutes. -/
structure RouteTableM where
  isCaseSpecific : Bool := true
  matchUsingQueryParams : Bool := false
  trie : Trie

/-- RouteTable.prototype.checkBasicsAndNormalizePath: the trie key is
the path (or the lower-cased normalizedPath when not case specific),
with a question mark and the raw query appended when
matchUsingQueryParams is on. -/
def checkBasicsAndNormalizePath (rt : RouteTableM) (req : RomReq) : List Char :=
  (if rt.isCaseSpecific then req.path else req.normalizedPath)
    ++ (if rt.matchUsingQueryParams then '?' :: req.query else [])

/-- The response-side action a handled trie resolution performs: an
error response (req.error), the forced-protocol redirect, or the
invocation of the matched route's action with its args object. -/
inductive RespAct where
  | errResp (code : Nat)
  | protoRedirect (code : Nat)
  | actionCall (action : Nat) (a0 a1 key : List Char)

/-- The JavaScript read result.forceProto inside checkTrieRoutes: a
TrieRoute.find result object carries only the data and match
properties (see FindResult), so the read yields undefined, modelled as
none. -/
def FindResult.forceProtoProp (_fr : FindResult) : Option String := none

/-- The body of the try block of checkTrieRoutes after the postMatch
check.  The source evaluates result.forceProto.length; because
result.forceProto is undefined (the find result has no such property),
that member access throws a TypeError, the catch block logs and calls
req.error(500), and the resolver returns true.  The branch below the
undefined read is the code as written, reachable only if the find
result carried a forceProto property. -/
def trieDispatch (req : RomReq) (result : FindResult) (a1 key : List Char) : Option RespAct :=
  match result.forceProtoProp with
  | none => some (.errResp 500)
  | some fp =>
    if fp.length != 0 && req.proto != fp then some (.protoRedirect 301)
    else some (.actionCall result.data.action result.matched a1 key)

/-- RouteTable.prototype.checkTrieRoutes: build the key, look it up in
the trie, apply the postMatch filter to the tail, then run the
dispatch; none means the resolver returned false (no match), some act
means it returned true after performing act. -/
def checkTrieRoutes (rt : RouteTableM) (req : RomReq) : Option RespAct :=
  let key := checkBasicsAndNormalizePath rt req
  if key.length == 0 then none
  else
    match TrieRoute.find rt.trie key req with
    | none => none
    | some result =>
      let a1 := key.drop result.matched.length
      match result.data.postMatchRE with
      | some re => if re a1 = false then none else trieDispatch req result a1 key
      | none => trieDispatch req result a1 key

/-- A route table owning trieA. -/
def tableA : RouteTableM := { trie := trieA }

/-- A request for the path /a/b. -/
def reqPathAB : RomReq :=
  { path := ['/', 'a', '/', 'b'], normalizedPath := ['/', 'a', '/', 'b'] }

/-- Claim C1, evaluation at the failing input: the trie lookup for
/a/b succeeds with match /a/, the route has no postMatch, an empty
forceProto and action 1, so the claim says the route's action is
invoked with args match /a/, tail b; the source instead reads
result.forceProto (undefined, since a find result has only data and
match), the length access throws, and the resolver answers with a 500
error response while still returning true (handled). -/
theorem checkTrieRoutes_bug_500 :
    checkTrieRoutes tableA reqPathAB = some (RespAct.errResp 500) ∧
    TrieRoute.find trieA ['/', 'a', '/', 'b'] reqPathAB = some ⟨routeA, ['/', 'a', '/']⟩ ∧
    routeA.forceProto = "" ∧
    routeA.postMatchRE = none :=
  ⟨rfl, rfl, rfl, rfl⟩

/-- The errorCodes table of lib/http-error.js, verbatim. -/
def errorCodes : List (Int × String) :=
  [(100, "Continue"), (101, "Switching Protocols"), (102, "Processing"),
   (200, "OK"), (201, "Created"), (202, "Accepted"),
   (203, "Non-Authoritative Information"), (204, "No Content"),
   (205, "Reset Content"), (206, "Partial Content"), (207, "Multi-Status"),
   (208, "Already Reported"), (226, "IM Used"),
   (300, "Multiple Choices"), (301, "Moved Permanently"),
   (302, "Moved Temporarily"), (303, "See Other"), (304, "Not Modified"),
   (305, "Use Proxy"), (306, "Switch Proxy"), (307, "Temporary Redirect"),
   (308, "Permanent Redirect"),
   (400, "Bad Request"), (401, "Unauthorized"), (402, "Payment Required"),
   (403, "Forbidden"), (404, "Not Found"), (405, "Method Not Allowed"),
   (406, "Not Acceptable"), (407, "Proxy Authentication Required"),
   (408, "Request Timeout"), (409, "Conflict"), (410, "Gone"),
   (411, "Length Required"), (412, "Precondition Failed"),
   (413, "Payload Too Large"), (414, "URI Too Long"),
   (415, "Unsupported Media Type"), (416, "Range Not Satisfiable"),
   (417, "Expectation Failed"), (418, "I'm a teapot"),
   (421, "Misdirected Request"), (422, "Unprocessable Entity"),
   (423, "Locked"), (424, "Failed Dependency"), (426, "Upgrade Required"),
   (428, "Precondition Required"), (429, "Too Many Requests"),
   (431, "Request Header Fields Too Large"),
   (451, "Unavailable For Legal Reasons"),
   (500, "Internal Server Error"), (501, "Not Implemented"),
   (502, "Bad Gateway"), (503, "Service Unavailable"),
   (504, "Gateway Timeout"), (505, "HTTP Version Not Supported"),
   (506, "Variant Also Negotiates"), (507, "Insufficient Storage"),
   (508, "Loop Detected"), (510, "Not Extended"),
   (511, "Network Authentication Required")]

/-- getErrorMessage of lib/http-error.js: the phrase for the code when
the table has a string there, and Unknown otherwise. -/
def getErrorMessage (code : Int) : String :=
  match errorCodes.lookup code with
  | some s => s
  | none => "Unknown"

/-- A JavaScript argument to the HttpError constructor: a number, a
string, or absent (undefined). -/
inductive JSArg where
  | num (n : Int)
  | str (s : String)
  | undef

/-- Value of a non-empty all-digit character list. -/
def digitsVal (l : List Char) : Option Nat :=
  if l ≠ [] ∧ l.all (·.isDigit) then
    some (l.foldl (fun acc c => 10 * acc + (c.toNat - 48)) 0)
  else none

/-- Model of the JavaScript Number conversion on the constructor's
argument domain, restricted to integer literals: numbers convert to
themselves, undefined to NaN (none), and a string converts to its
trimmed integer value, with the empty string converting to 0 and any
non-integer string to NaN. -/
def jsNumber : JSArg → Option Int
  | .num n => some n
  | .undef => none
  | .str s =>
    match s.trim.data with
    | [] => some 0
    | '-' :: rest => (digitsVal rest).map fun v => -(v : Int)
    | '+' :: rest => (digitsVal rest).map fun v => (v : Int)
    | t => (digitsVal t).map fun v => (v : Int)

/-- Longest leading digit run of a list, as parseInt consumes it; none
when there is no leading digit (NaN). -/
def leadDigits (l : List Char) : Option Nat :=
  let ds := l.takeWhile (·.isDigit)
  if ds = [] then none
  else some (ds.foldl (fun acc c => 10 * acc + (c.toNat - 48)) 0)

/-- Model of parseInt(s, 10): skip leading whitespace, take an optional
sign and the longest digit run; NaN (none) when no digits follow. -/
def jsParseInt (s : String) : Option Int :=
  match s.data.dropWhile Char.isWhitespace with
  | '-' :: rest => (leadDigits rest).map fun v => -(v : Int)
  | '+' :: rest => (leadDigits rest).map fun v => (v : Int)
  | t => (leadDigits t).map fun v => (v : Int)

/-- The third branch of the HttpError constructor (and the fall-through
when no branch fires): when the message is a string, status is
assigned parseInt(message, 10) whether or not the guard succeeds, and
the message is kept only when the parse is positive and the string is
longer than three characters; when the message is not a string nothing
was assigned, and the final comparison reads the numeric value of the
original status argument. -/
def httpErrorB3 (message status : JSArg) : JSArg × Option Int :=
  match message with
  | .str s =>
    match jsParseInt s with
    | some v =>
      if 0 < v then ((if 3 < s.length then JSArg.str s else JSArg.undef), some v)
      else (message, some v)
    | none => (message, none)
  | _ => (message, jsNumber status)

/-- The branch cascade of the HttpError constructor: a numeric message
becomes the status and the message is cleared; otherwise a numeric
status (or a status whose Number conversion is positive) is used;
otherwise the third branch runs.  The result is the final message
value and the final status as a numeric-or-NaN value. -/
def httpErrorArgs (message status : JSArg) : JSArg × Option Int :=
  match message with
  | .num n => (JSArg.undef, some n)
  | _ =>
    match status with
    | .num n => (message, some n)
    | _ =>
      match jsNumber status with
      | some v => if 0 < v then (message, some v) else httpErrorB3 message status
      | none => httpErrorB3 message status

/-- The final statusCode assignment: status when it is a number with
0 < status < 600, else 500 (NaN comparisons are false). -/
def finalStatus : Option Int → Int
  | some v => if 0 < v ∧ v < 600 then v else 500
  | none => 500

/-- The HttpError value: statusCode and message. -/
structure HttpError where
  statusCode : Int
  message : String

/-- The HttpError constructor of lib/http-error.js. -/
def HttpError.make (message status : JSArg) : HttpError :=
  let ms := httpErrorArgs message status
  { statusCode := finalStatus ms.2,
    message :=
      match ms.1 with
      | .str s => s
      | _ => getErrorMessage (finalStatus ms.2) }

theorem finalStatus_range (o : Option Int) : 1 ≤ finalStatus o ∧ finalStatus o ≤ 599 := by
  cases o with
  | none => exact ⟨by norm_num [finalStatus], by norm_num [finalStatus]⟩
  | some v =>
    simp only [finalStatus]
    split_ifs with h
    · omega
    · omega

theorem httpErrorArgs_undef_fst (status : JSArg) :
    (httpErrorArgs JSArg.undef status).1 = JSArg.undef := by
  cases status with
  | num n => rfl
  | undef => rfl
  | str s =>
    simp only [httpErrorArgs]
    cases jsNumber (JSArg.str s) with
    | none => rfl
    | some v =>
      by_cases h : 0 < v
      · simp [h]
      · simp [h, httpErrorB3]

/-- Counterexample to claim C8 as stated: a status of 42 is accepted
by the constructor's guard (0 < status < 600), so the statusCode is
42, which is not in the claimed range 100-599. -/
theorem httpError_counterexample :
    HttpError.make (JSArg.num 42) JSArg.undef = ⟨42, "Unknown"⟩ ∧
    ¬(100 ≤ (HttpError.make (JSArg.num 42) JSArg.undef).statusCode) := by
  constructor
  · rfl
  · decide

/-- Claim C8 as amended: for every combination of message and status
arguments the statusCode lies in 1-599 (not 100-599), with 500 used
when no valid status is supplied; the message defaults to the phrase
from the code table (or Unknown) whenever no message string is given;
and a plain numeric status in (0, 600) is taken as is. -/
theorem httpError_make_amended (message status : JSArg) :
    (1 ≤ (HttpError.make message status).statusCode ∧
      (HttpError.make message status).statusCode ≤ 599) ∧
    ((message = JSArg.undef ∨ ∃ n, message = JSArg.num n) →
      (HttpError.make message status).message
        = getErrorMessage (HttpError.make message status).statusCode) ∧
    (∀ n : Int, message = JSArg.undef → status = JSArg.num n →
      (HttpError.make message status).statusCode = if 0 < n ∧ n < 600 then n else 500) := by
  refine ⟨finalStatus_range _, ?_, ?_⟩
  · intro h
    rcases h with h | ⟨n, h⟩ <;> subst h
    · show (match (httpErrorArgs JSArg.undef status).1 with
          | JSArg.str s => s
          | _ => getErrorMessage (finalStatus (httpErrorArgs JSArg.undef status).2)) = _
      rw [httpErrorArgs_undef_fst]
      rfl
    · rfl
  · intro n h1 h2
    subst h1
    subst h2
    rfl

/-- Witness for C8 at a concrete input: status 404 with no message. -/
theorem httpError_make_amended_witness :
    (1 ≤ (HttpError.make JSArg.undef (JSArg.num 404)).statusCode ∧
      (HttpError.make JSArg.undef (JSArg.num 404)).statusCode ≤ 599) ∧
    (HttpError.make JSArg.undef (JSArg.num 404)).message
      = getErrorMessage (HttpError.make JSArg.undef (JSArg.num 404)).statusCode ∧
    (HttpError.make JSArg.undef (JSArg.num 404)).statusCode = 404 := by
  obtain ⟨h1, h2, h3⟩ := httpError_make_amended JSArg.undef (JSArg.num 404)
  refine ⟨h1, h2 (Or.inl rfl), ?_⟩
  rw [h3 404 rfl rfl]
  decide

/-- A JavaScript header value: a string, a number, or anything else. -/
inductive HVal where
  | str (s : String)
  | num (n : Int)
  | other

/-- An argument to mergeHeaders: an object (an ordered list of own
properties), null, undefined, or any non-object value. -/
inductive HArg where
  | obj (props : List (String × HVal))
  | jsNull
  | undef
  | nonObj

/-- JavaScript property assignment on an object modelled as an ordered
association list: an existing key keeps its position and gets the new
value, a new key is appended. -/
def setKey {β : Type} (m : List (String × β)) (k : String) (v : β) : List (String × β) :=
  if m.any (fun p => p.1 == k) then m.map fun p => if p.1 == k then (k, v) else p
  else m ++ [(k, v)]

/-- Lower-casing of a string, character by character; JavaScript
toLowerCase on the ASCII strings involved. -/
def lowerStr (s : String) : String := String.mk (s.data.map Char.toLower)

/-- The base loop of utils.mergeHeaders: every own property value must
be a string, and is stored under the lower-cased key. -/
def copyHeadersBase : List (String × HVal) → List (String × HVal) →
    Except String (List (String × HVal))
  | mh, [] => .ok mh
  | mh, (k, v) :: rest =>
    match v with
    | .str _ => copyHeadersBase (setKey mh (lowerStr k) v) rest
    | _ => .error "Invalid header value"

/-- The extra loop of utils.mergeHeaders: every own property value must
be a string or a number, and is stored under the lower-cased key. -/
def copyHeadersExtra : List (String × HVal) → List (String × HVal) →
    Except String (List (String × HVal))
  | mh, [] => .ok mh
  | mh, (k, v) :: rest =>
    match v with
    | .str _ => copyHeadersExtra (setKey mh (lowerStr k) v) rest
    | .num _ => copyHeadersExtra (setKey mh (lowerStr k) v) rest
    | _ => .error "Invalid header value"

/-- utils.mergeHeaders: each argument contributes only when it is a
non-null object (typeof base is object and base is not null); the base
properties are copied first, then the extra properties over them. -/
def mergeHeaders (base extra : HArg) : Except String (List (String × HVal)) :=
  match (match base with
    | .obj props => copyHeadersBase [] props
    | _ => Except.ok []) with
  | .error e => .error e
  | .ok mh =>
    match extra with
    | .obj props => copyHeadersExtra mh props
    | _ => .ok mh

/-- Whether an argument is a non-null object. -/
def isObjArg : HArg → Bool
  | .obj _ => true
  | _ => false

/-- All property values are strings. -/
def baseValsOk (props : List (String × HVal)) : Prop :=
  ∀ p ∈ props, ∃ s, p.2 = HVal.str s

/-- All property values are strings or numbers. -/
def extraValsOk (props : List (String × HVal)) : Prop :=
  ∀ p ∈ props, (∃ s, p.2 = HVal.str s) ∨ (∃ n, p.2 = HVal.num n)

/-- The lower-cased-key copy of a single property list, written from
the claim: each property is stored in order under its lower-cased key,
later duplicates overriding earlier ones. -/
def lowerKeyCopy (props : List (String × HVal)) : List (String × HVal) :=
  props.foldl (fun acc p => setKey acc (lowerStr p.1) p.2) []

theorem copyHeadersBase_ok (props : List (String × HVal)) :
    ∀ acc, baseValsOk props →
      copyHeadersBase acc props
        = .ok (props.foldl (fun acc p => setKey acc (lowerStr p.1) p.2) acc) := by
  induction props with
  | nil => intro acc _; rfl
  | cons p rest ih =>
    intro acc h
    obtain ⟨s, hs⟩ := h p (List.mem_cons_self p rest)
    obtain ⟨k, v⟩ := p
    simp only at hs
    subst hs
    simp only [copyHeadersBase, List.foldl_cons]
    exact ih _ fun q hq => h q (List.mem_cons_of_mem _ hq)

theorem copyHeadersExtra_ok (props : List (String × HVal)) :
    ∀ acc, extraValsOk props →
      copyHeadersExtra acc props
        = .ok (props.foldl (fun acc p => setKey acc (lowerStr p.1) p.2) acc) := by
  induction props with
  | nil => intro acc _; rfl
  | cons p rest ih =>
    intro acc h
    have hrest : extraValsOk rest := fun q hq => h q (List.mem_cons_of_mem _ hq)
    obtain ⟨k, v⟩ := p
    rcases h (k, v) (List.mem_cons_self _ rest) with ⟨s, hs⟩ | ⟨n, hn⟩
    · simp only at hs
      subst hs
      simp only [copyHeadersExtra, List.foldl_cons]
      exact ih _ hrest
    · simp only at hn
      subst hn
      simp only [copyHeadersExtra, List.foldl_cons]
      exact ih _ hrest

theorem copyHeadersBase_err (props : List (String × HVal)) :
    ∀ acc, ¬ baseValsOk props →
      copyHeadersBase acc props = .error "Invalid header value" := by
  induction props with
  | nil => intro acc h; exact absurd (fun p hp => absurd hp (List.not_mem_nil p)) h
  | cons p rest ih =>
    intro acc h
    obtain ⟨k, v⟩ := p
    cases v with
    | str s =>
      simp only [copyHeadersBase]
      refine ih _ fun hrest => h ?_
      intro q hq
      rcases List.mem_cons.mp hq with hq | hq
      · subst hq; exact ⟨s, rfl⟩
      · exact hrest q hq
    | num n => rfl
    | other => rfl

theorem copyHeadersExtra_err (props : List (String × HVal)) :
    ∀ acc, ¬ extraValsOk props →
      copyHeadersExtra acc props = .error "Invalid header value" := by
  induction props with
  | nil => intro acc h; exact absurd (fun p hp => absurd hp (List.not_mem_nil p)) h
  | cons p rest ih =>
    intro acc h
    obtain ⟨k, v⟩ := p
    cases v with
    | str s =>
      simp only [copyHeadersExtra]
      refine ih _ fun hrest => h ?_
      intro q hq
      rcases List.mem_cons.mp hq with hq | hq
      · subst hq; exact Or.inl ⟨s, rfl⟩
      · exact hrest q hq
    | num n =>
      simp only [copyHeadersExtra]
      refine ih _ fun hrest => h ?_
      intro q hq
      rcases List.mem_cons.mp hq with hq | hq
      · subst hq; exact Or.inr ⟨n, rfl⟩
      · exact hrest q hq
    | other => rfl

/-- Claim C10: mergeHeaders is total over absent arguments: a null,
undefined or non-object argument is treated as an empty map, so the
result is the lower-cased-key copy of the other argument (or the empty
map when both are absent); and it throws exactly when an own property
value of base is not a string, or an own property value of extra is
neither a string nor a number. -/
theorem mergeHeaders_total (base extra : HArg) :
    (isObjArg base = false → isObjArg extra = false →
      mergeHeaders base extra = .ok []) ∧
    (∀ props, isObjArg base = false → extra = .obj props → extraValsOk props →
      mergeHeaders base extra = .ok (lowerKeyCopy props)) ∧
    (∀ props, isObjArg extra = false → base = .obj props → baseValsOk props →
      mergeHeaders base extra = .ok (lowerKeyCopy props)) ∧
    ((∃ e, mergeHeaders base extra = .error e) ↔
      ((∃ props, base = .obj props ∧ ¬ baseValsOk props) ∨
        ((∀ props, base = .obj props → baseValsOk props) ∧
          ∃ props, extra = .obj props ∧ ¬ extraValsOk props))) := by
  refine ⟨?_, ?_, ?_, ?_⟩
  · intro hb he
    cases base with
    | obj props => simp [isObjArg] at hb
    | jsNull | undef | nonObj =>
      cases extra with
      | obj props => simp [isObjArg] at he
      | jsNull | undef | nonObj => rfl
  · intro props hb he hvals
    subst he
    cases base with
    | obj bprops => simp [isObjArg] at hb
    | jsNull | undef | nonObj =>
      show copyHeadersExtra [] props = _
      rw [copyHeadersExtra_ok props [] hvals]
      rfl
  · intro props he hb hvals
    subst hb
    simp only [mergeHeaders, copyHeadersBase_ok props [] hvals]
    cases extra with
    | obj eprops => simp [isObjArg] at he
    | jsNull | undef | nonObj => rfl
  · constructor
    · rintro ⟨e, he⟩
      cases base with
      | obj bprops =>
        by_cases hb : baseValsOk bprops
        · right
          refine ⟨fun props hp => by injection hp with hh; subst hh; exact hb, ?_⟩
          cases extra with
          | obj eprops =>
            refine ⟨eprops, rfl, fun hvals => ?_⟩
            simp only [mergeHeaders, copyHeadersBase_ok bprops [] hb] at he
            rw [copyHeadersExtra_ok eprops _ hvals] at he
            exact Except.noConfusion he
          | jsNull | undef | nonObj =>
            all_goals {
              simp only [mergeHeaders, copyHeadersBase_ok bprops [] hb] at he
              exact Except.noConfusion he
            }
        · exact Or.inl ⟨bprops, rfl, hb⟩
      | jsNull | undef | nonObj =>
        all_goals {
          right
          refine ⟨fun props hp => HArg.noConfusion hp, ?_⟩
          cases extra with
          | obj eprops =>
            refine ⟨eprops, rfl, fun hvals => ?_⟩
            simp only [mergeHeaders] at he
            rw [copyHeadersExtra_ok eprops _ hvals] at he
            exact Except.noConfusion he
          | jsNull | undef | nonObj =>
            all_goals {
              simp only [mergeHeaders] at he
              exact Except.noConfusion he
            }
        }
    · rintro (⟨props, hp, hbad⟩ | ⟨hbok, props, hp, hbad⟩)
      · subst hp
        exact ⟨"Invalid header value", by
          simp only [mergeHeaders, copyHeadersBase_err props [] hbad]⟩
      · subst hp
        refine ⟨"Invalid header value", ?_⟩
        cases base with
        | obj bprops =>
          simp only [mergeHeaders, copyHeadersBase_ok bprops [] (hbok bprops rfl)]
          exact copyHeadersExtra_err props _ hbad
        | jsNull | undef | nonObj =>
          all_goals {
            simp only [mergeHeaders]
            exact copyHeadersExtra_err props [] hbad
          }

/-- Witness for C10: an undefined base with a numeric-valued extra
header map merges to the lower-cased-key copy of extra. -/
theorem mergeHeaders_total_witness :
    mergeHeaders HArg.undef (HArg.obj [("X-A", HVal.num 1)])
      = .ok (lowerKeyCopy [("X-A", HVal.num 1)]) :=
  (mergeHeaders_total HArg.undef (HArg.obj [("X-A", HVal.num 1)])).2.1
    [("X-A", HVal.num 1)] rfl rfl
    (fun p hp => by
      rw [List.mem_singleton] at hp
      subst hp
      exact Or.inr ⟨1, rfl⟩)

/-- A word character or hyphen, the character class of the hostname
regex in utils.isHostnameValid. -/
def isWordDash (c : Char) : Bool := c.isAlphanum || c == '_' || c == '-'

/-- Split a character list at the dots, keeping empty labels. -/
def splitDots (l : List Char) : List (List Char) :=
  l.foldr
    (fun c acc =>
      if c = '.' then [] :: acc
      else
        match acc with
        | [] => [[c]]
        | a :: as => (c :: a) :: as)
    [[]]

/-- utils.isHostnameValid: the string is non-empty and consists of
non-empty dot-separated labels of word characters and hyphens. -/
def isHostnameValid (s : String) : Bool :=
  s.length != 0 && (splitDots s.data).all fun lab =>
    lab.length != 0 && lab.all isWordDash

/-- A JavaScript value stored under a hostname in this.hosts: either an
array (of some length) or a plain object holding the host entry.  The
constructor only ever stores plain objects; the array alternative
exists because the duplicate check asks Array.isArray of the stored
value. -/
inductive JsHostVal (α : Type) where
  | arrv (len : Nat)
  | objv (e : α)

/-- The HostTable state built by the constructor: the hosts map (a
JavaScript object modelled as an ordered association list), the
hasDefaultHost flag and the entry count. -/
structure HostTableM (α : Type) where
  hosts : List (String × JsHostVal α) := []
  hasDefaultHost : Bool := false
  count : Nat := 0

/-- The duplicate test of the HostTable constructor, line by line:
Array.isArray(this.hosts[n]) && this.hosts[n].length !== 0.  An absent
binding reads as undefined (not an array), and a plain object is not
an array either, so the test is true only for a stored non-empty
array. -/
def dupCheck {α : Type} : Option (JsHostVal α) → Bool
  | some (.arrv len) => len != 0
  | _ => false

/-- One round of the hostname loop of the HostTable constructor:
substitute when subs is configured (skipping the entry when the result
is blank), validate, lower-case, run the duplicate test, and store the
entry object; payload abstracts the host config and resolver list
object built earlier in the constructor. -/
def subHostname (subs : Option (List Char → Option (List Char))) (n0 : String) : String :=
  match subs with
  | some sb => String.mk (substitute sb n0.data)
  | none => n0

def addHostname {α : Type} (subs : Option (List Char → Option (List Char))) (payload : α)
    (st : HostTableM α) (n0 : String) : Except String (HostTableM α) :=
  let n1 := subHostname subs n0
  if subs.isSome && n1 == "" then .ok st
  else if !(isHostnameValid n1) && n1 != "*" then
    .error ("Invalid hostname " ++ n1)
  else
    let n := lowerStr n1
    if dupCheck (st.hosts.lookup n) then
      .error ("Multiple host table entries for hostname " ++ n)
    else
      .ok { hosts := setKey st.hosts n (.objv payload),
            hasDefaultHost := st.hasDefaultHost || n == "*",
            count := st.count + 1 }

/-- A host table source entry: its hostname list, with the host config
and route resolver construction abstracted into a payload. -/
structure HostSrc (α : Type) where
  hostnames : List String
  payload : α

/-- Left fold over a list in which the step may fail; the first error
aborts the loop, mirroring the constructor's throw out of its loops. -/
def foldlExcept {σ χ : Type} (f : σ → χ → Except String σ) : σ → List χ → Except String σ
  | s, [] => .ok s
  | s, x :: xs =>
    match f s x with
    | .error e => .error e
    | .ok s2 => foldlExcept f s2 xs

/-- One host table entry of the constructor loop: validate the
hostname list and fold the hostname loop over it. -/
def addHostEntry {α : Type} (subs : Option (List Char → Option (List Char)))
    (st : HostTableM α) (h : HostSrc α) : Except String (HostTableM α) :=
  if h.hostnames.length == 0 then .error "Invalid or empty host table entry"
  else foldlExcept (addHostname subs h.payload) st h.hostnames

/-- The HostTable constructor: validate the source list and fold the
entry loop over it starting from the empty table. -/
def buildHostTable {α : Type} (subs : Option (List Char → Option (List Char)))
    (src : List (HostSrc α)) : Except String (HostTableM α) :=
  if src.length == 0 then .error "Invalid or empty host table source data"
  else foldlExcept (addHostEntry subs) {} src

theorem lookup_cons_self {β : Type} (k : String) (v : β) (rest : List (String × β)) :
    ((k, v) :: rest).lookup k = some v := by
  simp [List.lookup]

theorem lookup_cons_ne {β : Type} (k k2 : String) (v : β) (rest : List (String × β))
    (h : (k2 == k) = false) : ((k, v) :: rest).lookup k2 = rest.lookup k2 := by
  simp [List.lookup, h]

theorem lookup_map_set_self {β : Type} (k : String) (v : β) :
    ∀ (m : List (String × β)), m.any (fun p => p.1 == k) = true →
      (m.map fun p => if p.1 == k then (k, v) else p).lookup k = some v := by
  intro m
  induction m with
  | nil => intro h; simp at h
  | cons p rest ih =>
    intro hany
    obtain ⟨pk, pv⟩ := p
    simp only [List.any_cons, Bool.or_eq_true] at hany
    by_cases hp : (pk == k) = true
    · simp only [List.map_cons]
      rw [if_pos (by simpa using hp)]
      exact lookup_cons_self k v _
    · have hr : rest.any (fun q => q.1 == k) = true := by
        rcases hany with h | h
        · exact absurd (by simpa using h) hp
        · exact h
      have hne : (k == pk) = false := by
        rw [beq_eq_false_iff_ne]
        intro he
        exact hp (beq_iff_eq.mpr he.symm)
      simp only [List.map_cons]
      rw [if_neg (by simpa using hp), lookup_cons_ne pk k pv _ hne]
      exact ih hr

theorem lookup_map_set_ne {β : Type} (k k2 : String) (v : β) (h : (k2 == k) = false) :
    ∀ (m : List (String × β)),
      (m.map fun p => if p.1 == k then (k, v) else p).lookup k2 = m.lookup k2 := by
  intro m
  induction m with
  | nil => rfl
  | cons p rest ih =>
    obtain ⟨pk, pv⟩ := p
    by_cases hp : (pk == k) = true
    · have hpk : pk = k := beq_iff_eq.mp hp
      subst hpk
      simp only [List.map_cons]
      rw [if_pos hp, lookup_cons_ne _ _ _ _ h, lookup_cons_ne _ _ _ _ h]
      exact ih
    · simp only [List.map_cons]
      rw [if_neg (by simpa using hp)]
      by_cases hk2 : (k2 == pk) = true
      · have heq : k2 = pk := beq_iff_eq.mp hk2
        subst heq
        rw [lookup_cons_self, lookup_cons_self]
      · rw [lookup_cons_ne _ _ _ _ (by simpa using hk2),
          lookup_cons_ne _ _ _ _ (by simpa using hk2)]
        exact ih

theorem lookup_append_single_self {β : Type} (k : String) (v : β) :
    ∀ (m : List (String × β)), (∀ p ∈ m, (p.1 == k) = false) →
      (m ++ [(k, v)]).lookup k = some v := by
  intro m
  induction m with
  | nil => intro _; exact lookup_cons_self k v []
  | cons p rest ih =>
    intro hall
    obtain ⟨pk, pv⟩ := p
    have hne : (k == pk) = false := by
      have h2 := hall (pk, pv) (List.mem_cons_self _ rest)
      rw [beq_eq_false_iff_ne] at h2 ⊢
      intro he
      exact h2 he.symm
    rw [List.cons_append, lookup_cons_ne pk k pv _ hne]
    exact ih fun q hq => hall q (List.mem_cons_of_mem _ hq)

theorem lookup_append_single_ne {β : Type} (k k2 : String) (v : β) (h : (k2 == k) = false) :
    ∀ (m : List (String × β)), (m ++ [(k, v)]).lookup k2 = m.lookup k2 := by
  intro m
  induction m with
  | nil => simp [List.lookup, h]
  | cons p rest ih =>
    obtain ⟨pk, pv⟩ := p
    by_cases hk2 : (k2 == pk) = true
    · have heq : k2 = pk := beq_iff_eq.mp hk2
      subst heq
      rw [List.cons_append, lookup_cons_self, lookup_cons_self]
    · rw [List.cons_append, lookup_cons_ne _ _ _ _ (by simpa using hk2),
        lookup_cons_ne _ _ _ _ (by simpa using hk2)]
      exact ih

theorem lookup_setKey_self {β : Type} (m : List (String × β)) (k : String) (v : β) :
    (setKey m k v).lookup k = some v := by
  rw [setKey]
  by_cases hany : m.any (fun p => p.1 == k) = true
  · rw [if_pos hany]
    exact lookup_map_set_self k v m hany
  · rw [if_neg hany]
    refine lookup_append_single_self k v m ?_
    intro p hp
    by_contra hcon
    rw [Bool.not_eq_false] at hcon
    exact hany (List.any_eq_true.mpr ⟨p, hp, hcon⟩)

theorem lookup_setKey_ne {β : Type} (m : List (String × β)) (k k2 : String) (v : β)
    (h : (k2 == k) = false) : (setKey m k v).lookup k2 = m.lookup k2 := by
  rw [setKey]
  by_cases hany : m.any (fun p => p.1 == k) = true
  · rw [if_pos hany]
    exact lookup_map_set_ne k k2 v h m
  · rw [if_neg hany]
    exact lookup_append_single_ne k k2 v h m

theorem lowerStr_eq_empty {s : String} (h : lowerStr s = "") : s = "" := by
  rcases s with ⟨d⟩
  have h2 : d.map Char.toLower = [] := congrArg String.data h
  have h3 : d = [] := List.map_eq_nil_iff.mp h2
  rw [h3]

theorem isHostnameValid_ne_empty {s : String} (h : isHostnameValid s = true) : s ≠ "" := by
  intro he
  subst he
  exact absurd h (by decide)

/-- Each round of the hostname loop preserves the constructor's
invariants: hasDefaultHost is set exactly when a wildcard binding
exists, and the empty hostname is never bound. -/
theorem addHostname_inv {α : Type} (subs : Option (List Char → Option (List Char)))
    (payload : α) (st st2 : HostTableM α) (n0 : String)
    (hinv : st.hasDefaultHost = (st.hosts.lookup "*").isSome ∧ st.hosts.lookup "" = none)
    (h : addHostname subs payload st n0 = .ok st2) :
    st2.hasDefaultHost = (st2.hosts.lookup "*").isSome ∧ st2.hosts.lookup "" = none := by
  obtain ⟨hinv1, hinv2⟩ := hinv
  simp only [addHostname] at h
  by_cases hskip : (subs.isSome && subHostname subs n0 == "") = true
  · rw [if_pos hskip] at h
    injection h with h
    subst h
    exact ⟨hinv1, hinv2⟩
  · rw [if_neg hskip] at h
    by_cases hbad : (!(isHostnameValid (subHostname subs n0)) && subHostname subs n0 != "*") = true
    · rw [if_pos hbad] at h
      exact Except.noConfusion h
    · rw [if_neg hbad] at h
      have hvs : isHostnameValid (subHostname subs n0) = true ∨ subHostname subs n0 = "*" := by
        by_cases hv : isHostnameValid (subHostname subs n0) = true
        · exact Or.inl hv
        · right
          have hveq : isHostnameValid (subHostname subs n0) = false := by
            cases hvv : isHostnameValid (subHostname subs n0) with
            | true => exact absurd hvv hv
            | false => rfl
          cases hne : (subHostname subs n0 != "*") with
          | false => simpa using hne
          | true =>
            have hcontr : (!(isHostnameValid (subHostname subs n0))
                && subHostname subs n0 != "*") = true := by
              rw [hveq, hne]
              rfl
            exact absurd hcontr hbad
      by_cases hdup : dupCheck (st.hosts.lookup (lowerStr (subHostname subs n0))) = true
      · rw [if_pos hdup] at h
        exact Except.noConfusion h
      · rw [if_neg hdup] at h
        injection h with h
        subst h
        have hne0 : lowerStr (subHostname subs n0) ≠ "" := by
          intro he
          have hemp := lowerStr_eq_empty he
          rcases hvs with hv | hstar0
          · exact isHostnameValid_ne_empty hv hemp
          · rw [hemp] at hstar0
            exact absurd hstar0 (by decide)
        constructor
        · show (st.hasDefaultHost || (lowerStr (subHostname subs n0) == "*"))
            = ((setKey st.hosts (lowerStr (subHostname subs n0))
                (JsHostVal.objv payload)).lookup "*").isSome
          by_cases hstar2 : (lowerStr (subHostname subs n0) == "*") = true
          · have heq : lowerStr (subHostname subs n0) = "*" := beq_iff_eq.mp hstar2
            rw [heq, lookup_setKey_self]
            simp
          · have hne : (("*" : String) == lowerStr (subHostname subs n0)) = false := by
              rw [beq_eq_false_iff_ne]
              intro he
              exact (by simpa using hstar2 : ¬ lowerStr (subHostname subs n0) = "*") he.symm
            rw [lookup_setKey_ne _ _ _ _ hne]
            have hf : (lowerStr (subHostname subs n0) == "*") = false := by
              cases hx : (lowerStr (subHostname subs n0) == "*") with
              | false => rfl
              | true => exact absurd hx hstar2
            rw [hf]
            simp [hinv1]
        · show ((setKey st.hosts (lowerStr (subHostname subs n0))
              (JsHostVal.objv payload)).lookup "") = none
          have hne : (("" : String) == lowerStr (subHostname subs n0)) = false := by
            rw [beq_eq_false_iff_ne]
            intro he
            exact hne0 he.symm
          rw [lookup_setKey_ne _ _ _ _ hne]
          exact hinv2

/-- An invariant preserved by each step of foldlExcept holds of the
final state. -/
theorem foldlExcept_inv {σ χ : Type} (P : σ → Prop) (f : σ → χ → Except String σ)
    (hf : ∀ s x s2, P s → f s x = .ok s2 → P s2) :
    ∀ (l : List χ) (s s2 : σ), P s → foldlExcept f s l = .ok s2 → P s2 := by
  intro l
  induction l with
  | nil =>
    intro s s2 hp h
    simp only [foldlExcept] at h
    injection h with h
    exact h ▸ hp
  | cons x xs ih =>
    intro s s2 hp h
    simp only [foldlExcept] at h
    cases hx : f s x with
    | error e =>
      simp only [hx] at h
      exact Except.noConfusion h
    | ok s3 =>
      simp only [hx] at h
      exact ih s3 s2 (hf s x s3 hp hx) h

/-- Each host entry of the constructor preserves the invariants. -/
theorem addHostEntry_inv {α : Type} (subs : Option (List Char → Option (List Char)))
    (st st2 : HostTableM α) (hsrc : HostSrc α)
    (hinv : st.hasDefaultHost = (st.hosts.lookup "*").isSome ∧ st.hosts.lookup "" = none)
    (h : addHostEntry subs st hsrc = .ok st2) :
    st2.hasDefaultHost = (st2.hosts.lookup "*").isSome ∧ st2.hosts.lookup "" = none := by
  rw [addHostEntry] at h
  by_cases hemp : (hsrc.hostnames.length == 0) = true
  · rw [if_pos hemp] at h
    exact Except.noConfusion h
  · rw [if_neg hemp] at h
    exact foldlExcept_inv
      (fun t => t.hasDefaultHost = (t.hosts.lookup "*").isSome ∧ t.hosts.lookup "" = none)
      (addHostname subs hsrc.payload)
      (fun s x s2 hp hx => addHostname_inv subs hsrc.payload s s2 x hp hx)
      hsrc.hostnames st st2 hinv h

/-- Tables built by the HostTable constructor satisfy the invariants:
hasDefaultHost is set exactly when a wildcard binding exists, and the
empty hostname is never bound (it fails validation, and blank
substitution results are skipped). -/
theorem buildHostTable_inv {α : Type} (subs : Option (List Char → Option (List Char)))
    (src : List (HostSrc α)) (t : HostTableM α)
    (h : buildHostTable subs src = .ok t) :
    t.hasDefaultHost = (t.hosts.lookup "*").isSome ∧ t.hosts.lookup "" = none := by
  rw [buildHostTable] at h
  by_cases hemp : (src.length == 0) = true
  · rw [if_pos hemp] at h
    exact Except.noConfusion h
  · rw [if_neg hemp] at h
    exact foldlExcept_inv
      (fun t => t.hasDefaultHost = (t.hosts.lookup "*").isSome ∧ t.hosts.lookup "" = none)
      (addHostEntry subs)
      (fun s x s2 hp hx => addHostEntry_inv subs s s2 x hp hx)
      src {} t ⟨rfl, rfl⟩ h

/-- HostTable.prototype.getHost: an empty (or non-string) hostname is
replaced by the wildcard, the lower-cased name is looked up, and on a
miss the wildcard entry is returned when hasDefaultHost is set, null
otherwise. -/
def getHost {α : Type} (t : HostTableM α) (host : String) : Option (JsHostVal α) :=
  let hn := if host.length != 0 then lowerStr host else "*"
  match t.hosts.lookup hn with
  | some v => some v
  | none => if t.hasDefaultHost then t.hosts.lookup "*" else none

/-- The claim-side description of getHost: the entry bound to the
lower-cased hostname when one exists; on a lookup miss the wildcard
entry exactly when one was defined, and null otherwise. -/
def getHostSpec {α : Type} (t : HostTableM α) (host : String) : Option (JsHostVal α) :=
  match t.hosts.lookup (lowerStr host) with
  | some v => some v
  | none => t.hosts.lookup "*"

/-- The outcome of one entry to RomRequest.prototype.doRoute before
resolver iteration: the retry-limit 500 failure, the invalid-host 503
failure, or proceeding with the host entry. -/
inductive RouteStepRes (α : Type) where
  | retryErr (code : Nat)
  | hostErr (code : Nat)
  | proceed (host : JsHostVal α)

/-- One entry to doRoute: routePass is post-incremented, the old value
is compared against retryLimit (failure throws, and the catch answers
500), then the host is resolved and a null host answers 503. -/
def doRouteStep {α : Type} (limit : Nat) (t : HostTableM α) (hostname : String)
    (rp : Nat) : Nat × RouteStepRes α :=
  (rp + 1,
    if limit < rp then .retryErr 500
    else
      match getHost t hostname with
      | none => .hostErr 503
      | some v => .proceed v)

/-- The routePass value after k entries to doRoute within one request:
the constructor starts it at 0 and each entry adds one. -/
def routePassAfter {α : Type} (limit : Nat) (t : HostTableM α) (hn : String) : Nat → Nat
  | 0 => 0
  | k + 1 => (doRouteStep limit t hn (routePassAfter limit t hn k)).1

/-- Claim C5: routePass starts at 0 and increases by exactly one on
each entry to doRoute, so after k entries it equals k (strict
monotonicity across rewrite recursion); an entry fails with the 500
retry error exactly when the routePass value it reads exceeds
retryLimit, so entries 0 through retryLimit proceed and entry
retryLimit+1 fails: at most retryLimit+1 routing passes run before the
request is failed with 500. -/
theorem doRoute_retry_bound {α : Type} (limit : Nat) (t : HostTableM α) (hn : String)
    (k : Nat) :
    routePassAfter limit t hn k = k ∧
    (doRouteStep limit t hn k).1 = k + 1 ∧
    ((doRouteStep limit t hn k).2 = RouteStepRes.retryErr 500 ↔ limit < k) := by
  refine ⟨?_, rfl, ?_⟩
  · induction k with
    | zero => rfl
    | succ k ih => simp [routePassAfter, ih, doRouteStep]
  · simp only [doRouteStep]
    by_cases h : limit < k
    · simp [h]
    · simp only [h, if_false]
      constructor
      · intro hcon
        cases hg : getHost t hn <;> rw [hg] at hcon <;> exact RouteStepRes.noConfusion hcon
      · intro hcon
        exact hcon.elim

/-- The duplicate-hostname configuration: two host entries, each
binding dup.com, with distinguishable payloads. -/
def dupHostsSrc : List (HostSrc Nat) := [⟨["dup.com"], 1⟩, ⟨["dup.com"], 2⟩]

/-- Claim C6 evaluation at the failing input: the duplicate test asks
Array.isArray of the stored entry, but stored entries are plain
objects, so the test never fires; building a table that binds dup.com
twice succeeds (no build error) and silently keeps only the second
binding. -/
theorem hostTable_duplicate_not_rejected :
    buildHostTable none dupHostsSrc
      = .ok { hosts := [("dup.com", JsHostVal.objv 2)], hasDefaultHost := false, count := 2 } ∧
    dupCheck (some (JsHostVal.objv (1 : Nat))) = false :=
  ⟨rfl, rfl⟩

/-- getHost agrees with its claim-side description on any table that
satisfies the constructor's invariants. -/
theorem getHost_spec_of_inv {α : Type} (t : HostTableM α) (host : String)
    (hstar : t.hasDefaultHost = (t.hosts.lookup "*").isSome)
    (hempty : t.hosts.lookup "" = none) :
    getHost t host = getHostSpec t host ∧
    (getHost t host = none → ∀ limit rp, ¬ limit < rp →
      (doRouteStep limit t host rp).2 = RouteStepRes.hostErr 503) := by
  constructor
  · rcases host with ⟨d⟩
    cases d with
    | nil =>
      have hlen : ((String.mk []).length != 0) = false := by decide
      simp only [getHost, getHostSpec, hlen, Bool.false_eq_true, if_false]
      rw [show lowerStr (String.mk []) = "" from rfl, hempty]
      cases hl : t.hosts.lookup "*" with
      | some v => rfl
      | none => simp
    | cons c cs =>
      have hlen : ((String.mk (c :: cs)).length != 0) = true := by
        simp [String.length]
      simp only [getHost, getHostSpec, hlen, if_true]
      cases hl : t.hosts.lookup (lowerStr (String.mk (c :: cs))) with
      | some v => rfl
      | none =>
        cases hd : t.hasDefaultHost with
        | true => simp
        | false =>
          rw [hd] at hstar
          cases hh : t.hosts.lookup "*" with
          | none => simp
          | some v =>
            rw [hh] at hstar
            exact Bool.noConfusion hstar
  · intro hnone limit rp hle
    simp [doRouteStep, hle, hnone]

/-- Witness for C5: with retryLimit 2, the fourth doRoute entry reads
routePass 3 and fails with the 500 retry error. -/
theorem doRoute_retry_bound_witness :
    routePassAfter 2 ({} : HostTableM Nat) "h" 3 = 3 ∧
    (doRouteStep 2 ({} : HostTableM Nat) "h" 3).2 = RouteStepRes.retryErr 500 := by
  obtain ⟨h1, _, h3⟩ := doRoute_retry_bound 2 ({} : HostTableM Nat) "h" 3
  exact ⟨h1, h3.mpr (by omega)⟩

/-- Claim C7: on every table the HostTable constructor builds, getHost
returns the entry bound to the lower-cased hostname when one exists,
and on a lookup miss returns the wildcard entry exactly when one was
defined and null otherwise (getHostSpec); and when getHost returns
null, a doRoute entry that passes the retry check fails the request
with the 503 invalid-host error. -/
theorem getHost_spec {α : Type} (subs : Option (List Char → Option (List Char)))
    (src : List (HostSrc α)) (t : HostTableM α) (host : String)
    (hbuild : buildHostTable subs src = .ok t) :
    getHost t host = getHostSpec t host ∧
    (getHost t host = none → ∀ limit rp, ¬ limit < rp →
      (doRouteStep limit t host rp).2 = RouteStepRes.hostErr 503) := by
  obtain ⟨h1, h2⟩ := buildHostTable_inv subs src t hbuild
  exact getHost_spec_of_inv t host h1 h2

/-- A host configuration binding a named host and the wildcard. -/
def srcStar : List (HostSrc Nat) := [⟨["a", "*"], 2⟩]

/-- The table built from srcStar. -/
def tableStar : HostTableM Nat :=
  { hosts := [("a", JsHostVal.objv 2), ("*", JsHostVal.objv 2)],
    hasDefaultHost := true, count := 2 }

/-- Witness for C7: an unknown hostname resolves to the wildcard entry
on a built table that defines one. -/
theorem getHost_spec_witness :
    getHost tableStar "B" = getHostSpec tableStar "B" ∧
    getHost tableStar "B" = some (JsHostVal.objv 2) :=
  ⟨(getHost_spec none srcStar tableStar "B" (by rfl)).1, by rfl⟩

end RouteOMatic
